import Mathlib

/-!
Shallow embedding of the tech4works/checker Go library, together with
theorems settling the specification claims about it.

The embedding models a Go runtime value as the inductive type `GoVal`.
Each constructor corresponds to one reflect kind of the library (the
integer width families are collapsed to one signed and one unsigned
constructor, since no claim distinguishes widths).  Interface boxing is
collapsed: `reflect.ValueOf` already strips the interface wrapper of an
`any` argument, and the recursive helpers of the library re-box through
`.Elem().Interface()`, which strips it again, so interface cells never
survive as separate nodes on the paths exercised by the claims.  A nil
interface cell appearing behind a pointer is represented by `vnil`.

Go float64 values are modelled exactly: a float is either NaN or a
rational number.  The comparison and conversion code of the library never
performs rounding arithmetic, so exact rationals together with an
explicit NaN give the same observable order behaviour as float64 on the
values the claims mention (the two infinities, which behave as ordered
extremes, are not represented; no claim involves them).

Functions that can panic in Go are modelled in the `Except String`
monad, the message being the panic message of the source.
-/

namespace Checker

/-- Model of a Go float64 value: either NaN or an exact rational. -/
inductive GoFloat where
  | nan : GoFloat
  | num (q : ℚ) : GoFloat
  deriving DecidableEq, Repr

/-- Model of a Go time.Time value, reduced to its count of milliseconds
since the Unix epoch.  This is the only observable of time.Time that the
settled claims depend on. -/
structure GoTime where
  ms : Int
  deriving DecidableEq, Repr

/-- Model of a Go runtime value.  Pointees of pointers are values again;
channel identity is modelled by an optional reference token (`none`
meaning a nil channel); a function value only records whether it is nil,
matching what reflect.DeepEqual can observe about functions.  Map keys
are modelled as strings (the claims only exercise string-keyed maps; Go
key equality on strings is string equality). -/
inductive GoVal where
  | vnil : GoVal
  | vbool (b : Bool) : GoVal
  | vint (n : Int) : GoVal
  | vuint (n : Nat) : GoVal
  | vfloat (f : GoFloat) : GoVal
  | vcomplex (re im : GoFloat) : GoVal
  | vstr (s : String) : GoVal
  | vptr (p : Option GoVal) : GoVal
  | vslice (xs : Option (List GoVal)) : GoVal
  | varray (xs : List GoVal) : GoVal
  | vmap (m : Option (List (String × GoVal))) : GoVal
  | vstruct (fields : List (String × GoVal)) : GoVal
  | vchan (ref : Option Nat) (buffered : Nat) : GoVal
  | vfunc (nilf : Bool) : GoVal
  | vtime (t : GoTime) : GoVal

namespace GoVal

/-- Name of the reflect kind of a value, as produced by Kind.String() in
Go; used to build the panic messages of the conversion helpers. -/
def kindName : GoVal → String
  | .vnil => "invalid"
  | .vbool _ => "bool"
  | .vint _ => "int"
  | .vuint _ => "uint"
  | .vfloat _ => "float64"
  | .vcomplex _ _ => "complex128"
  | .vstr _ => "string"
  | .vptr _ => "ptr"
  | .vslice _ => "slice"
  | .varray _ => "array"
  | .vmap _ => "map"
  | .vstruct _ => "struct"
  | .vchan _ _ => "chan"
  | .vfunc _ => "func"
  | .vtime _ => "struct"

end GoVal

open GoVal

/-- Equality of two model floats, following the Go comparison of float64
with the == operator: NaN compares unequal to everything. -/
def gfEq : GoFloat → GoFloat → Bool
  | .num a, .num b => a == b
  | _, _ => false

/-- Strict greater-than on model floats; false whenever NaN is involved,
matching float64 ordering in Go. -/
def gfGt : GoFloat → GoFloat → Bool
  | .num a, .num b => decide (b < a)
  | _, _ => false

/-- Greater-or-equal on model floats; false whenever NaN is involved. -/
def gfGe : GoFloat → GoFloat → Bool
  | .num a, .num b => decide (b ≤ a)
  | _, _ => false

/-- Strict less-than on model floats; false whenever NaN is involved. -/
def gfLt : GoFloat → GoFloat → Bool
  | .num a, .num b => decide (a < b)
  | _, _ => false

/-- Less-or-equal on model floats; false whenever NaN is involved. -/
def gfLe : GoFloat → GoFloat → Bool
  | .num a, .num b => decide (a ≤ b)
  | _, _ => false

/-- Zero test on model floats, following reflect.Value.IsZero on float64:
the value compares equal to 0 (NaN does not). -/
def gfIsZero : GoFloat → Bool
  | .num a => a == 0
  | .nan => false

/-- Addition of model floats, NaN absorbing, used by the complex case of
toFloat which returns real plus imaginary part. -/
def gfAdd : GoFloat → GoFloat → GoFloat
  | .num a, .num b => .num (a + b)
  | _, _ => .nan

/-- Truncation of a model float toward zero, following the Go conversion
int64(f) for finite f.  The conversion of NaN is unspecified in Go; the
model uses the amd64 outcome, the smallest int64.  No settled claim
depends on the NaN case. -/
def gfTrunc : GoFloat → Int
  | .num q => if 0 ≤ q then ⌊q⌋ else ⌈q⌉
  | .nan => -(2 ^ 63)

/-- Embedding of IsNil (src/empty.go lines 57 to 68).  The switch treats
Invalid as nil; for the kinds Interface, Ptr, Map, Array, Chan, Slice and
Func it calls reflect.Value.IsNil, which panics on the Array kind because
Go arrays have no nil state; every other kind yields false.  The
Interface arm of the source switch is unreachable, because
reflect.ValueOf of an any argument never yields the Interface kind. -/
def IsNil : GoVal → Except String Bool
  | .vnil => .ok true
  | .vptr p => .ok p.isNone
  | .vmap m => .ok m.isNone
  | .varray _ => .error "reflect: call of reflect.Value.IsNil on array Value"
  | .vchan r _ => .ok r.isNone
  | .vslice s => .ok s.isNone
  | .vfunc n => .ok n
  | _ => .ok false

mutual

/-- Embedding of reflect.Value.IsZero as used by the default arm of
IsEmpty (src/empty.go line 197): a value is zero when it equals the zero
value of its type; composite kinds recurse into their components.  The
vnil arm is unreachable through IsEmpty (the nil check returns earlier)
and is given the value true for totality. -/
def isZero : GoVal → Bool
  | .vnil => true
  | .vbool b => !b
  | .vint n => n == 0
  | .vuint n => n == 0
  | .vfloat f => gfIsZero f
  | .vcomplex re im => gfIsZero re && gfIsZero im
  | .vstr s => s == ""
  | .vptr p => p.isNone
  | .vslice s => s.isNone
  | .vmap m => m.isNone
  | .vchan r _ => r.isNone
  | .vfunc n => n
  | .varray xs => isZeroList xs
  | .vstruct fs => isZeroFields fs
  | .vtime t => t.ms == 0

/-- Zero test of every element of an array. -/
def isZeroList : List GoVal → Bool
  | [] => true
  | x :: xs => isZero x && isZeroList xs

/-- Zero test of every field of a struct. -/
def isZeroFields : List (String × GoVal) → Bool
  | [] => true
  | (_, v) :: fs => isZero v && isZeroFields fs

end

/-- Character class of strings.TrimSpace from the Go standard library,
restricted to the Latin-1 white space characters (the claims involve no
exotic Unicode white space). -/
def isSpaceGo (c : Char) : Bool :=
  c == ' ' || c == '\t' || c == '\n' || c == '\x0b' || c == '\x0c' || c == '\r'

/-- Embedding of strings.TrimSpace: drop white space from both ends. -/
def goTrimSpace (s : String) : String :=
  ⟨(s.data.dropWhile isSpaceGo).reverse.dropWhile isSpaceGo |>.reverse⟩

/-- Kind-specific emptiness test applied by IsEmpty after the one-level
dereference (the switch of src/empty.go lines 189 to 198): strings are
trimmed and tested for zero length, slices, arrays and maps for zero
element count, everything else for being the zero value of its kind. -/
def emptyTest : GoVal → Bool
  | .vstr s => (goTrimSpace s).length == 0
  | .vslice xs => (xs.getD []).length == 0
  | .varray xs => xs.length == 0
  | .vmap m => (m.getD []).length == 0
  | v => isZero v

/-- Embedding of IsEmpty (src/empty.go lines 179 to 199): first the IsNil
check (whose array panic propagates), then exactly one dereference when
the kind is Pointer or Interface, then the kind-specific test.  A nil
pointer cannot reach the dereference because IsNil already returned
true for it. -/
def IsEmpty (a : GoVal) : Except String Bool :=
  match IsNil a with
  | .error m => .error m
  | .ok true => .ok true
  | .ok false =>
    let rv := match a with
      | .vptr (some v) => v
      | x => x
    .ok (emptyTest rv)

mutual

/-- Embedding of reflect.DeepEqual restricted to the model.  Values of
distinct kinds are never deeply equal (each constructor stands for one
concrete Go type).  Pointers are deeply equal when both are nil or the
pointees are; the pointer-identity fast path of the source is not
modelled, which only affects values containing non-nil functions or NaN
components, and those are excluded from the reflexivity theorem below.
Functions are deeply equal only when both are nil.  Channels compare by
identity, modelled by the reference token.  Slices require equal
nil-ness and length and elementwise equality, arrays equal length and
elementwise equality, structs equal field lists, maps equal length and,
for every entry of the first map, a deeply equal entry of the second map
under the same key, exactly as the map arm of reflect.deepValueEqual. -/
def deepEqual : GoVal → GoVal → Bool
  | .vnil, .vnil => true
  | .vbool a, .vbool b => a == b
  | .vint a, .vint b => a == b
  | .vuint a, .vuint b => a == b
  | .vfloat a, .vfloat b => gfEq a b
  | .vcomplex r1 i1, .vcomplex r2 i2 => gfEq r1 r2 && gfEq i1 i2
  | .vstr a, .vstr b => a == b
  | .vptr none, .vptr none => true
  | .vptr (some v), .vptr (some w) => deepEqual v w
  | .vslice none, .vslice none => true
  | .vslice (some xs), .vslice (some ys) =>
      xs.length == ys.length && deepEqualList xs ys
  | .varray xs, .varray ys =>
      xs.length == ys.length && deepEqualList xs ys
  | .vmap none, .vmap none => true
  | .vmap (some m1), .vmap (some m2) =>
      m1.length == m2.length && deepEqualMapDir m1 m2
  | .vstruct fs, .vstruct gs =>
      fs.length == gs.length && deepEqualFields fs gs
  | .vchan r1 _, .vchan r2 _ => r1 == r2
  | .vfunc n1, .vfunc n2 => n1 && n2
  | .vtime t1, .vtime t2 => t1.ms == t2.ms
  | _, _ => false

/-- Elementwise deep equality of two lists of values. -/
def deepEqualList : List GoVal → List GoVal → Bool
  | [], [] => true
  | x :: xs, y :: ys => deepEqual x y && deepEqualList xs ys
  | _, _ => false

/-- Fieldwise deep equality of two struct field lists: equal names in
order and deeply equal field values. -/
def deepEqualFields : List (String × GoVal) → List (String × GoVal) → Bool
  | [], [] => true
  | (n1, v1) :: fs, (n2, v2) :: gs =>
      n1 == n2 && deepEqual v1 v2 && deepEqualFields fs gs
  | _, _ => false

/-- One direction of the map arm of reflect.deepValueEqual: every entry
of the first map must have a matching entry in the second map. -/
def deepEqualMapDir : List (String × GoVal) → List (String × GoVal) → Bool
  | [], _ => true
  | (k, v) :: rest, m2 => deepEqualFind k v m2 && deepEqualMapDir rest m2

/-- Scan of a map for the entry under a given key, comparing the stored
value deeply against the given one; false when the key is absent
(the invalid MapIndex case of the source). -/
def deepEqualFind : String → GoVal → List (String × GoVal) → Bool
  | _, _, [] => false
  | k, v, (k2, w) :: rest =>
      if k == k2 then deepEqual v w else deepEqualFind k v rest

end

/-- Embedding of Equals (src/equal.go lines 48 to 60): when the first
argument is a non-nil pointer it recurses on the pointee, then likewise
for the second argument, and finally compares with reflect.DeepEqual.
The Interface arm of the source condition is unreachable because
reflect.ValueOf of an any argument never yields the Interface kind. -/
def Equals (a b : GoVal) : Bool :=
  match a, b with
  | .vptr (some v), b => Equals v b
  | a, .vptr (some w) => Equals a w
  | a, b => deepEqual a b
termination_by sizeOf a + sizeOf b

/-- Repeated unwrap of non-nil pointer layers, the normal form reached by
the recursion of Equals before it applies DeepEqual. -/
def unwrapAll : GoVal → GoVal
  | .vptr (some v) => unwrapAll v
  | x => x

/-- Definition following the words of the specification sentence for the
equality claim: deep equality after unwrapping at most ONE non-nil
pointer layer on each side.  Stated only to be compared against the
Equals function of the source. -/
def specEqualsSingleUnwrap (a b : GoVal) : Bool :=
  let u : GoVal → GoVal := fun v =>
    match v with
    | .vptr (some w) => w
    | x => x
  deepEqual (u a) (u b)

/-- Rendering of a reflect.Value by its String method: the string itself
for the String kind, a kind-tagged placeholder otherwise.  The
placeholder arm is unreachable in EqualsIgnoreCase because the first
operand is validated to be a string before the final comparison. -/
def rvString : GoVal → String
  | .vstr s => s
  | v => "<" ++ kindName v ++ " Value>"

/-- Kind test used by the final line of EqualsIgnoreCase. -/
def isStringKind : GoVal → Bool
  | .vstr _ => true
  | _ => false

/-- Embedding of strings.ToLower restricted to ASCII case mapping (the
settled claims never depend on non-ASCII lowercasing). -/
def strLowerGo (s : String) : String :=
  s.toLower

/-- Embedding of validateEqualsIgnoreCaseParams (src/equal.go lines 220
to 228): panic when the first operand is nil (per IsNil, whose array
panic propagates), then panic unless its kind is String or Ptr. -/
def validateEqualsIgnoreCaseParams (a : GoVal) : Except String Unit :=
  match IsNil a with
  | .error m => .error m
  | .ok true => .error "A is nil"
  | .ok false =>
    match a with
    | .vstr _ => .ok ()
    | .vptr _ => .ok ()
    | v => .error ("Unsupported type: " ++ kindName v)

/-- Embedding of EqualsIgnoreCase (src/equal.go lines 108 to 123): the
first operand is validated, then pointer layers of the first operand are
unwrapped recursively, then pointer layers of the second; a nil second
pointer makes the source call Interface() on the zero Value returned by
Elem(), which panics with the reflect message.  The final line returns
true exactly when the second operand has the String kind and the two
lowercased strings coincide. -/
def EqualsIgnoreCase (a b : GoVal) : Except String Bool :=
  (validateEqualsIgnoreCaseParams a).bind fun _ =>
    match a, b with
    | .vptr (some v), b => EqualsIgnoreCase v b
    | _, .vptr none => .error "reflect: call of reflect.Value.Interface on zero Value"
    | a, .vptr (some w) => EqualsIgnoreCase a w
    | a, b => .ok (isStringKind b && (strLowerGo (rvString a) == strLowerGo (rvString b)))
termination_by sizeOf a + sizeOf b

/-- Exact decimal fragment of strconv.ParseFloat from the Go standard
library: an optional sign, decimal digits with at most one decimal
point, and the literal NaN, evaluated as an exact rational.  The
exponent, hexadecimal and infinity syntaxes and the rounding to the
nearest float64 are not modelled; no settled claim converts a string to
a float. -/
def parseFloatGo (s : String) : Option GoFloat :=
  if s == "NaN" then some .nan else
  let (sign, rest) : ℚ × List Char :=
    match s.data with
    | '-' :: r => (-1, r)
    | '+' :: r => (1, r)
    | r => (1, r)
  let intPart := rest.takeWhile Char.isDigit
  let rest2 := rest.dropWhile Char.isDigit
  let natVal : List Char → Nat := fun cs =>
    cs.foldl (fun acc c => 10 * acc + (c.toNat - '0'.toNat)) 0
  match rest2 with
  | [] =>
    if intPart.isEmpty then none
    else some (.num (sign * (natVal intPart : ℚ)))
  | '.' :: fracPart =>
    if fracPart.all Char.isDigit && !(intPart.isEmpty && fracPart.isEmpty) then
      some (.num (sign * ((natVal intPart : ℚ) +
        (natVal fracPart : ℚ) / ((10 : ℚ) ^ fracPart.length))))
    else none
  | _ => none

/-- Embedding of toFloat (the current checker variant, src/unnamed/
part_010 lines 239 to 267): strings are parsed, signed and unsigned
integers widen exactly, floats pass through, complex values yield the
sum of their parts, non-nil pointers are dereferenced recursively, nil
pointers and every remaining kind panic. -/
def toFloat : GoVal → Except String GoFloat
  | .vstr s =>
    match parseFloatGo s with
    | some f => .ok f
    | none => .error ("Error getting float by string: " ++ s)
  | .vint n => .ok (.num (n : ℚ))
  | .vuint n => .ok (.num (n : ℚ))
  | .vfloat f => .ok f
  | .vcomplex re im => .ok (gfAdd re im)
  | .vptr none => .error "Error convert interface/pointer to float, it is null!"
  | .vptr (some v) => toFloat v
  | v => .error ("Error getting float, type " ++ kindName v ++ " not supported!")

/-- Embedding of IsGreaterThan (src/unnamed/part_001 lines 38 to 40):
the float comparison of the two converted operands. -/
def IsGreaterThan (a b : GoVal) : Except String Bool := do
  let x ← toFloat a
  let y ← toFloat b
  pure (gfGt x y)

/-- Embedding of IsGreaterThanOrEqual (src/unnamed/part_001 lines 56 to
58). -/
def IsGreaterThanOrEqual (a b : GoVal) : Except String Bool := do
  let x ← toFloat a
  let y ← toFloat b
  pure (gfGe x y)

/-- Embedding of IsLessThan (src/unnamed/part_001 lines 73 to 75). -/
def IsLessThan (a b : GoVal) : Except String Bool := do
  let x ← toFloat a
  let y ← toFloat b
  pure (gfLt x y)

/-- Embedding of IsLessThanOrEqual (src/unnamed/part_001 lines 91 to
93). -/
def IsLessThanOrEqual (a b : GoVal) : Except String Bool := do
  let x ← toFloat a
  let y ← toFloat b
  pure (gfLe x y)

/-- Embedding of toLength (the current checker variant, src/unnamed/
part_010 lines 278 to 303).  Strings yield their byte length, arrays,
slices and maps their element count (zero for nil slices and maps),
numeric kinds their own truncated value, structs their field count
(time.Time has three fields), complex values the truncated real part,
non-nil pointers recurse, nil pointers panic.  Every remaining kind,
channels included, falls to the unsupported-type panic: this variant has
no Chan arm. -/
def toLength : GoVal → Except String Int
  | .vstr s => .ok (s.utf8ByteSize : Int)
  | .varray xs => .ok (xs.length : Int)
  | .vslice xs => .ok ((xs.getD []).length : Int)
  | .vmap m => .ok ((m.getD []).length : Int)
  | .vint n => .ok n
  | .vuint n => .ok (n : Int)
  | .vfloat f => .ok (gfTrunc f)
  | .vstruct fs => .ok (fs.length : Int)
  | .vtime _ => .ok 3
  | .vcomplex re _ => .ok (gfTrunc re)
  | .vptr none => .error "Error getting the interface/pointer size, it is null!"
  | .vptr (some v) => toLength v
  | v => .error ("Error getting " ++ kindName v ++ " size, type not supported!")

/-- Embedding of toLen (src/util.go lines 70 to 99), the variant used by
the comparator package: identical to toLength except that it has a Chan
arm returning the buffered element count of a non-nil channel and
panicking on a nil channel. -/
def toLen : GoVal → Except String Int
  | .vint n => .ok n
  | .vuint n => .ok (n : Int)
  | .vfloat f => .ok (gfTrunc f)
  | .vstruct fs => .ok (fs.length : Int)
  | .vtime _ => .ok 3
  | .vstr s => .ok (s.utf8ByteSize : Int)
  | .varray xs => .ok (xs.length : Int)
  | .vslice xs => .ok ((xs.getD []).length : Int)
  | .vmap m => .ok ((m.getD []).length : Int)
  | .vcomplex re _ => .ok (gfTrunc re)
  | .vchan none _ => .error "Error getting the channel size, it is null!"
  | .vchan (some _) buffered => .ok (buffered : Int)
  | .vptr none => .error "Error getting the interface/pointer size, it is null!"
  | .vptr (some v) => toLen v
  | v => .error ("Error getting " ++ kindName v ++ " size, type not supported!")

/-- Embedding of IsLengthEquals (src/unnamed/part_001 lines 106 to
108). -/
def IsLengthEquals (a b : GoVal) : Except String Bool := do
  let la ← toLength a
  let lb ← toLength b
  pure (la == lb)

/-- Embedding of IsLengthGreaterThan (src/unnamed/part_001 lines 153 to
155). -/
def IsLengthGreaterThan (a b : GoVal) : Except String Bool := do
  let la ← toLength a
  let lb ← toLength b
  pure (decide (lb < la))

/-- Rendering of a model float as text.  Abstraction of
strconv.FormatFloat with the g format: the exact shape of the rendering
is not modelled and no settled claim converts a float to text. -/
def formatFloatGo : GoFloat → String
  | .nan => "NaN"
  | .num q => if q.den == 1 then Int.repr q.num else Int.repr q.num ++ "/" ++ Nat.repr q.den

/-- Rendering of a model complex value as text.  Abstraction of
strconv.FormatComplex; no settled claim converts a complex value. -/
def formatComplexGo (re im : GoFloat) : String :=
  "(" ++ formatFloatGo re ++ "+" ++ formatFloatGo im ++ "i)"

mutual

/-- Abstraction of encoding/json.Marshal used by the composite arms of
the toString conversion: a compact JSON rendering of the value, without
modelling string escaping or the exact field ordering rules of the
package; the kinds json.Marshal rejects (complex, channel, function)
yield the empty string because the source discards the marshal error.
No settled claim converts a composite value to text. -/
def jsonMarshalGo : GoVal → String
  | .vnil => "null"
  | .vbool b => cond b "true" "false"
  | .vint n => Int.repr n
  | .vuint n => Nat.repr n
  | .vfloat f => formatFloatGo f
  | .vcomplex _ _ => ""
  | .vstr s => "\"" ++ s ++ "\""
  | .vptr none => "null"
  | .vptr (some v) => jsonMarshalGo v
  | .vslice none => "null"
  | .vslice (some xs) => "[" ++ jsonMarshalList xs ++ "]"
  | .varray xs => "[" ++ jsonMarshalList xs ++ "]"
  | .vmap none => "null"
  | .vmap (some es) => "\x7b" ++ jsonMarshalEntries es ++ "\x7d"
  | .vstruct fs => "\x7b" ++ jsonMarshalEntries fs ++ "\x7d"
  | .vchan _ _ => ""
  | .vfunc _ => ""
  | .vtime t => "\"" ++ Int.repr t.ms ++ "\""

/-- Comma-joined JSON rendering of list elements. -/
def jsonMarshalList : List GoVal → String
  | [] => ""
  | [x] => jsonMarshalGo x
  | x :: xs => jsonMarshalGo x ++ "," ++ jsonMarshalList xs

/-- Comma-joined JSON rendering of keyed entries. -/
def jsonMarshalEntries : List (String × GoVal) → String
  | [] => ""
  | [(k, v)] => "\"" ++ k ++ "\":" ++ jsonMarshalGo v
  | (k, v) :: es => "\"" ++ k ++ "\":" ++ jsonMarshalGo v ++ "," ++ jsonMarshalEntries es

end

/-- Embedding of toString (the current checker variant, src/unnamed/
part_010 lines 317 to 350): strings pass through, signed and unsigned
integers render in base 10, floats, complex values and booleans render
with their formatters, composite kinds render through json.Marshal,
non-nil pointers recurse, nil pointers panic, everything else panics as
unsupported.  The raw-text special case of the source for byte slices is
not modelled because the model does not distinguish element types of
slices; no settled claim converts a byte slice. -/
def toString : GoVal → Except String String
  | .vstr s => .ok s
  | .vint n => .ok (Int.repr n)
  | .vuint n => .ok (Nat.repr n)
  | .vfloat f => .ok (formatFloatGo f)
  | .vcomplex re im => .ok (formatComplexGo re im)
  | .vbool b => .ok (cond b "true" "false")
  | .varray xs => .ok (jsonMarshalGo (.varray xs))
  | .vslice xs => .ok (jsonMarshalGo (.vslice xs))
  | .vmap m => .ok (jsonMarshalGo (.vmap m))
  | .vstruct fs => .ok (jsonMarshalGo (.vstruct fs))
  | .vtime t => .ok (jsonMarshalGo (.vtime t))
  | .vptr none => .error "Error getting a string, it is null!"
  | .vptr (some v) => toString v
  | v => .error ("Error getting a string, unsupported type " ++ kindName v ++ "!")

/-- Location of the first occurrence of a separator in a character list:
the characters before it and the characters after it, none when the
separator does not occur. -/
def splitFirst (sep : List Char) : List Char → Option (List Char × List Char)
  | [] => if sep.isEmpty then some ([], []) else none
  | c :: rest =>
    if (c :: rest).take sep.length == sep then
      some ([], (c :: rest).drop sep.length)
    else
      (splitFirst sep rest).map fun p => (c :: p.1, p.2)

/-- Splitting loop around successive occurrences of the separator.  The
fuel argument is instantiated with the length of the input, which always
suffices because every removed occurrence of a non-empty separator
consumes at least one character; the fuel only makes the recursion
structural. -/
def goSplitAux (sep : List Char) : Nat → List Char → List (List Char)
  | 0, s => [s]
  | fuel + 1, s =>
    match splitFirst sep s with
    | none => [s]
    | some (pre, post) => pre :: goSplitAux sep fuel post

/-- Embedding of strings.Split from the Go standard library for a
non-empty separator: the list of segments of the input around every
occurrence of the separator.  The empty-separator behaviour of Go
(splitting into runes) is not modelled; the only use in this file passes
a non-empty separator. -/
def goSplit (s sep : List Char) : List (List Char) :=
  if sep.isEmpty then [s] else goSplitAux sep s.length s

/-- Embedding of IsBearer (src/string.go lines 399 to 403): the operand
is converted to text, split around the constant separator with space,
and the first segment is compared against that same constant. -/
def IsBearer (a : GoVal) : Except String Bool :=
  (toString a).map fun s =>
    let bearer := "Bearer ".data
    let split := goSplit s.data bearer
    decide (split.length > 0) && (split.headD [] == bearer)

/-- Embedding of removeNonDigits (src/unnamed/part_010 lines 437 to
440): keep only the decimal digits of the string. -/
def removeNonDigits (s : String) : String :=
  ⟨s.data.filter Char.isDigit⟩

/-- Embedding of allDigitsEqual (src/unnamed/part_010 lines 446 to 453):
every character equals the first one; vacuously true on short input. -/
def allDigitsEqual (s : String) : Bool :=
  match s.data with
  | [] => true
  | c :: rest => rest.all (· == c)

/-- Value of the character at an index of the document as a digit; zero
for a non-digit character because the source discards the Atoi error. -/
def digitAt (ds : List Char) (i : Nat) : Nat :=
  let c := ds.getD i '0'
  if c.isDigit then c.toNat - '0'.toNat else 0

/-- Embedding of calculateVerifierDigits (src/unnamed/part_010 lines 470
to 495): two weighted digit sums over the document, the second one
taking one extra position, each reduced modulo 11 with results below two
collapsed to zero and the rest reflected to 11 minus the remainder. -/
def calculateVerifierDigits (document : String) (weights1 weights2 : List Nat) : Nat × Nat :=
  let ds := document.data
  let sum1 := (List.range weights1.length).foldl
    (fun acc i => acc + digitAt ds i * weights1.getD i 0) 0
  let sum2 := (List.range weights1.length).foldl
    (fun acc i => acc + digitAt ds i * weights2.getD i 0) 0
    + digitAt ds weights1.length * weights2.getD weights1.length 0
  let verifier := fun (sum : Nat) =>
    let r := sum % 11
    if r < 2 then 0 else 11 - r
  (verifier sum1, verifier sum2)

/-- Embedding of IsCPF (src/string.go lines 251 to 262): the operand is
converted to text, stripped to its digits, rejected unless exactly
eleven digits remain and not all of them coincide, and accepted exactly
when the two computed verifier digits match the two trailing digits. -/
def IsCPF (a : GoVal) : Except String Bool :=
  (toString a).map fun str =>
    let s := removeNonDigits str
    if s.length != 11 || allDigitsEqual s then false
    else
      let weights1 : List Nat := [10, 9, 8, 7, 6, 5, 4, 3, 2]
      let weights2 : List Nat := [11, 10, 9, 8, 7, 6, 5, 4, 3, 2]
      let p := calculateVerifierDigits s weights1 weights2
      p.1 == digitAt s.data 9 && p.2 == digitAt s.data 10

/-- Model of time.UnixMilli from the Go standard library: the instant
whose count of milliseconds since the Unix epoch is the argument. -/
def timeUnixMilli (n : Int) : GoTime := ⟨n⟩

/-- Model of time.Unix with zero nanoseconds: the instant whose count of
SECONDS since the Unix epoch is the argument; stated to contrast the
milliseconds interpretation used by the source. -/
def timeUnix (sec : Int) : GoTime := ⟨1000 * sec⟩

/-- Abstraction of the string arm of toTimeWithErr, which tries sixteen
time layouts in order with time.Parse; modelled as the not-parsed
outcome with the unknown-format error message of the source.  No
settled claim converts a string to a time. -/
def parseTimeString (s : String) : Except String GoTime :=
  .error ("cannot convert string to time.Time: Unknown format \"" ++ s ++ "\"")

/-- Embedding of toTimeWithErr (the current checker variant,
src/unnamed/part_010 lines 369 to 395): strings go through the layout
parser, signed integers, unsigned integers and floats are interpreted as
milliseconds since the Unix epoch through time.UnixMilli (floats after
truncation to int64), an already-typed time.Time value passes through
unchanged, and every other kind is an error.  Pointers are NOT
dereferenced by this conversion. -/
def toTimeWithErr : GoVal → Except String GoTime
  | .vstr s => parseTimeString s
  | .vint n => .ok (timeUnixMilli n)
  | .vuint n => .ok (timeUnixMilli (n : Int))
  | .vfloat f => .ok (timeUnixMilli (gfTrunc f))
  | .vtime t => .ok t
  | v => .error ("cannot convert to time.Time from type: " ++ kindName v)

/-- Embedding of toTime (src/unnamed/part_010 lines 401 to 407): the
panic on a conversion error is the propagated error of the model. -/
def toTime (a : GoVal) : Except String GoTime :=
  toTimeWithErr a

-- Decidable equality of panic-or-value results, used to evaluate the
-- embedded functions on concrete inputs.
deriving instance DecidableEq for Except

/-- Test for the Array kind, used to isolate the one kind on which the
IsNil switch panics. -/
def isArrayKind : GoVal → Bool
  | .varray _ => true
  | _ => false

/-- Definition following the words of the specification sentence for the
nil check: true exactly when the kind is one of pointer, interface, map,
slice, channel or function with the nil flag set, or the kind is invalid
(the untyped nil).  Interface values are represented by their dynamic
value, as reflect.ValueOf represents them, so the interface kind has no
separate arm. -/
def specNilLike : GoVal → Bool
  | .vnil => true
  | .vptr p => p.isNone
  | .vmap m => m.isNone
  | .vslice s => s.isNone
  | .vchan r _ => r.isNone
  | .vfunc n => n
  | _ => false

/-- Test whether a value resolves, after unwrapping any number of
non-nil pointer layers, to the String kind; this is exactly the
condition under which the first-operand validation chain of
EqualsIgnoreCase runs through without panicking. -/
def resolvesToString : GoVal → Bool
  | .vstr _ => true
  | .vptr (some v) => resolvesToString v
  | _ => false

/-- Test whether unwrapping pointer layers of a value runs into a nil
pointer; on the second operand of EqualsIgnoreCase this makes the source
call Interface() on the zero Value, which panics. -/
def hitsNilPointer : GoVal → Bool
  | .vptr none => true
  | .vptr (some v) => hitsNilPointer v
  | _ => false

/-- Key list of a map without duplicates, stated as a Boolean scan. -/
def nodupKeysAux : List String → Bool
  | [] => true
  | k :: rest => !(rest.contains k) && nodupKeysAux rest

mutual

/-- Well-formedness of a model value as an image of a real Go value: the
key lists of all maps contained in it are free of duplicates (Go maps
cannot hold a key twice).  Values outside this set are artefacts of the
association-list representation. -/
def WF : GoVal → Bool
  | .vptr (some v) => WF v
  | .vslice (some xs) => WFList xs
  | .varray xs => WFList xs
  | .vmap (some es) => nodupKeysAux (es.map Prod.fst) && WFEntries es
  | .vstruct fs => WFEntries fs
  | _ => true

/-- Well-formedness of every element of a list. -/
def WFList : List GoVal → Bool
  | [] => true
  | x :: xs => WF x && WFList xs

/-- Well-formedness of every entry value of a keyed list. -/
def WFEntries : List (String × GoVal) → Bool
  | [] => true
  | (_, v) :: es => WF v && WFEntries es

end

mutual

/-- Absence of the two features on which reflect.DeepEqual is not
reflexive: non-nil function values and NaN float components, anywhere
inside the value. -/
def clean : GoVal → Bool
  | .vfunc n => n
  | .vfloat f => decide (f ≠ GoFloat.nan)
  | .vcomplex re im => decide (re ≠ GoFloat.nan) && decide (im ≠ GoFloat.nan)
  | .vptr (some v) => clean v
  | .vslice (some xs) => cleanList xs
  | .varray xs => cleanList xs
  | .vmap (some es) => cleanEntries es
  | .vstruct fs => cleanEntries fs
  | _ => true

/-- Cleanness of every element of a list. -/
def cleanList : List GoVal → Bool
  | [] => true
  | x :: xs => clean x && cleanList xs

/-- Cleanness of every entry value of a keyed list. -/
def cleanEntries : List (String × GoVal) → Bool
  | [] => true
  | (_, v) :: es => clean v && cleanEntries es

end

/-- First-match lookup in a keyed list, the reference function for the
map scan of deepEqualFind. -/
def findEntryVal (k : String) : List (String × GoVal) → Option GoVal
  | [] => none
  | (k2, w) :: rest => if k == k2 then some w else findEntryVal k rest

/-- Exactly-one-of-three test used to state the trichotomy of the
numeric comparison claim. -/
def exactlyOne (a b c : Bool) : Bool :=
  (a && !b && !c) || (!a && b && !c) || (!a && !b && c)

/-- Success test of a panic-or-value result. -/
def exceptIsOk {α : Type} : Except String α → Bool
  | .ok _ => true
  | .error _ => false

/-- C1: the specification asserts that IsBearer of the text Bearer token
is true while IsBearer of the text token and of the number 12345 are
false.  The source splits the converted operand around the constant
Bearer-with-space and compares the FIRST segment against that same
constant; the segment before the first occurrence of the separator can
never be the separator itself, so IsBearer returns false on every input,
including the positive example of its own documentation and tests.  This
theorem evaluates the embedding on the three documented inputs: the
first result contradicts the claim. -/
theorem c1_isbearer_eval :
    IsBearer (.vstr "Bearer token") = .ok false ∧
    IsBearer (.vstr "token") = .ok false ∧
    IsBearer (.vint 12345) = .ok false := by
  refine ⟨by decide, by decide, by decide⟩

/-- C2: the claim states that IsNil is true exactly on nil-flagged
values of the pointer, interface, map, slice, channel and function kinds
and on the invalid kind, is false on every other kind including arrays,
and never fails.  The embedding shows that outside the Array kind the
claimed characterization is exact, but on every array value the source
calls reflect.Value.IsNil on an Array kind value, which panics. -/
theorem c2_isnil_characterization :
    (∀ a : GoVal, IsNil a =
      if isArrayKind a then
        .error "reflect: call of reflect.Value.IsNil on array Value"
      else .ok (specNilLike a)) ∧
    IsNil (.varray [.vint 1, .vint 2, .vint 3]) =
      .error "reflect: call of reflect.Value.IsNil on array Value" := by
  constructor
  · intro a
    cases a <;> rfl
  · rfl

/-- C7: the claim states that the length conversion used by the
length-comparison predicates returns the buffered element count of a
channel and fails exactly on nil channels.  The length-comparison
predicates of the checker package call toLength, whose current variant
has no Chan arm, so every channel falls to the unsupported-kind panic;
this theorem shows the resulting panic of IsLengthEquals on a non-nil
channel, contradicting the claimed success. -/
theorem c7_channel_counterexample :
    IsLengthEquals (.vchan (some 0) 3) (.vint 3) =
      .error "Error getting chan size, type not supported!" := by
  decide

/-- C7 amended: the toLen conversion of util.go supports channels,
returning the buffered element count and failing exactly on nil
channels, but the toLength conversion used by the checker
length-comparison predicates rejects every channel, nil or not, as an
unsupported kind. -/
theorem c7_channel_length :
    (∀ b : Nat, toLen (.vchan none b) =
      .error "Error getting the channel size, it is null!") ∧
    (∀ (r b : Nat), toLen (.vchan (some r) b) = .ok (b : Int)) ∧
    (∀ (r : Option Nat) (b : Nat), toLength (.vchan r b) =
      .error "Error getting chan size, type not supported!") := by
  refine ⟨fun b => rfl, fun r b => rfl, fun r b => rfl⟩

/-- C8: IsCPF accepts 12101721007 and 891.595.290-16, rejects
11111111111 because all digits coincide, and rejects every string whose
digit count after stripping non-digits is not eleven. -/
theorem c8_iscpf :
    IsCPF (.vstr "12101721007") = .ok true ∧
    IsCPF (.vstr "891.595.290-16") = .ok true ∧
    IsCPF (.vstr "11111111111") = .ok false ∧
    ∀ s : String, (removeNonDigits s).length ≠ 11 → IsCPF (.vstr s) = .ok false := by
  refine ⟨by decide, by decide, by decide, ?_⟩
  intro s h
  have hb : ((removeNonDigits s).length != 11) = true := by simpa using h
  simp [IsCPF, toString, Except.map, hb]

/-- C8 witness: the digit count of 123 is not eleven and IsCPF rejects
it, by the universally quantified part of the claim theorem. -/
theorem c8_iscpf_witness :
    (removeNonDigits "123").length ≠ 11 ∧ IsCPF (.vstr "123") = .ok false :=
  ⟨by decide, c8_iscpf.2.2.2 "123" (by decide)⟩

/-- C9: toTimeWithErr interprets every numeric input of the signed
integer, unsigned integer and float kinds as a count of milliseconds
since the Unix epoch through time.UnixMilli (floats after truncation to
int64), not as seconds, and an already-typed time value passes through
unchanged; toTime propagates the same outcome. -/
theorem c9_totime_unixmilli :
    (∀ n : Int, toTimeWithErr (.vint n) = .ok (timeUnixMilli n)) ∧
    (∀ n : Nat, toTimeWithErr (.vuint n) = .ok (timeUnixMilli (n : Int))) ∧
    (∀ q : ℚ, toTimeWithErr (.vfloat (.num q)) = .ok (timeUnixMilli (gfTrunc (.num q)))) ∧
    (∀ t : GoTime, toTimeWithErr (.vtime t) = .ok t) ∧
    (∀ a : GoVal, toTime a = toTimeWithErr a) ∧
    (∀ n : Int, n ≠ 0 → timeUnixMilli n ≠ timeUnix n) := by
  refine ⟨fun n => rfl, fun n => rfl, fun q => rfl, fun t => rfl, fun a => rfl, ?_⟩
  intro n hn h
  have hms : n = 1000 * n := congrArg GoTime.ms h
  omega

/-- C9 witness: one millisecond is not one second, by the inequality
part of the claim theorem applied at one. -/
theorem c9_totime_witness : timeUnixMilli 1 ≠ timeUnix 1 :=
  c9_totime_unixmilli.2.2.2.2.2 1 (by decide)

/-- C10: the claim states that a non-nil pointer to a pointer is never
reported empty regardless of the final pointee.  A non-nil pointer to a
NIL pointer is a pointer to a pointer, yet after the single dereference
the nil pointee is the zero value of its kind, so IsEmpty reports it
empty. -/
theorem c10_isempty_counterexample :
    IsEmpty (.vptr (some (.vptr none))) = .ok true := by
  decide

/-- C10 amended: IsEmpty dereferences exactly one pointer layer and then
applies the kind-specific test to the pointee without further
dereferencing: the pointee of a non-nil pointer decides emptiness
through emptyTest, a non-nil pointer to a NON-nil pointer is never
reported empty regardless of the final pointee, and a non-nil pointer to
a nil pointer is reported empty because a nil pointer is the zero value
of its kind. -/
theorem c10_isempty_one_level :
    (∀ v : GoVal, IsEmpty (.vptr (some v)) = .ok (emptyTest v)) ∧
    (∀ w : GoVal, IsEmpty (.vptr (some (.vptr (some w)))) = .ok false) ∧
    IsEmpty (.vptr (some (.vptr none))) = .ok true := by
  refine ⟨fun v => rfl, fun w => rfl, by decide⟩

/-- C3: the claim asserts that IsGreaterThan equals the negation of
IsLessThanOrEqual and that exactly one of greater, less and numeric
equality holds, for ALL numeric operands.  A NaN float is a numeric
value, and both comparisons yield false on it, so neither is the
negation of the other; the final conjunct records that the two equal
results contradict the claimed negation. -/
theorem c3_nan_counterexample :
    IsGreaterThan (.vfloat .nan) (.vint 1) = .ok false ∧
    IsLessThanOrEqual (.vfloat .nan) (.vint 1) = .ok false ∧
    (false : Bool) ≠ !false := by
  decide

/-- C3 amended: for all operands whose float conversions succeed with
values that are not NaN, IsGreaterThan is the pointwise negation of
IsLessThanOrEqual, IsLessThan is the mirrored strict comparison, and
exactly one of greater, less and equality of the converted numbers
holds. -/
theorem c3_comparisons (a b : GoVal) (x y : ℚ)
    (ha : toFloat a = .ok (.num x)) (hb : toFloat b = .ok (.num y)) :
    IsGreaterThan a b = .ok (decide (y < x)) ∧
    IsLessThan a b = .ok (decide (x < y)) ∧
    IsLessThanOrEqual a b = .ok (!decide (y < x)) ∧
    exactlyOne (decide (y < x)) (decide (x < y)) (decide (x = y)) = true := by
  have hle : (decide (x ≤ y)) = !decide (y < x) := by
    by_cases h : y < x
    · simp [h, not_le.mpr h]
    · simp [h, not_lt.mp h]
  refine ⟨?_, ?_, ?_, ?_⟩
  · simp [IsGreaterThan, ha, hb, pure, Except.pure, gfGt, Bind.bind, Except.bind]
  · simp [IsLessThan, ha, hb, pure, Except.pure, gfLt, Bind.bind, Except.bind]
  · rw [← hle]
    simp [IsLessThanOrEqual, ha, hb, pure, Except.pure, gfLe, Bind.bind, Except.bind]
  · rcases lt_trichotomy x y with h | h | h
    · simp [exactlyOne, h, asymm h, ne_of_lt h]
    · simp [exactlyOne, h, lt_irrefl]
    · simp [exactlyOne, h, asymm h, (ne_of_gt h)]

/-- C3 witness: the amended comparison theorem applied to the integers
three and two. -/
theorem c3_comparisons_witness :
    toFloat (.vint 3) = .ok (.num 3) ∧ toFloat (.vint 2) = .ok (.num 2) ∧
    (IsGreaterThan (.vint 3) (.vint 2) = .ok (decide ((2 : ℚ) < 3)) ∧
     IsLessThan (.vint 3) (.vint 2) = .ok (decide ((3 : ℚ) < 2)) ∧
     IsLessThanOrEqual (.vint 3) (.vint 2) = .ok (!decide ((2 : ℚ) < 3)) ∧
     exactlyOne (decide ((2 : ℚ) < 3)) (decide ((3 : ℚ) < 2))
       (decide ((3 : ℚ) = 2)) = true) :=
  ⟨by decide, by decide, c3_comparisons (.vint 3) (.vint 2) 3 2 (by decide) (by decide)⟩

theorem gv_sizeOf_pos (a : GoVal) : 0 < sizeOf a := by
  cases a <;> simp_arith

theorem validate_error_resolves (a : GoVal) (m : String)
    (h : validateEqualsIgnoreCaseParams a = .error m) : resolvesToString a = false := by
  cases a with
  | vstr s => simp [validateEqualsIgnoreCaseParams, IsNil] at h
  | vptr p =>
    cases p with
    | none => rfl
    | some v => simp [validateEqualsIgnoreCaseParams, IsNil] at h
  | vnil => rfl
  | vbool b => rfl
  | vint n => rfl
  | vuint n => rfl
  | vfloat f => rfl
  | vcomplex re im => rfl
  | vslice xs => rfl
  | varray xs => rfl
  | vmap mm => rfl
  | vstruct fs => rfl
  | vchan r c => rfl
  | vfunc n => rfl
  | vtime t => rfl

theorem validate_ok_shape (a : GoVal) (u : Unit)
    (h : validateEqualsIgnoreCaseParams a = .ok u) :
    (∃ s, a = .vstr s) ∨ (∃ v, a = .vptr (some v)) := by
  cases a with
  | vstr s => exact Or.inl ⟨s, rfl⟩
  | vptr p =>
    cases p with
    | none => simp [validateEqualsIgnoreCaseParams, IsNil] at h
    | some v => exact Or.inr ⟨v, rfl⟩
  | vnil => simp [validateEqualsIgnoreCaseParams, IsNil] at h
  | vbool b => simp [validateEqualsIgnoreCaseParams, IsNil] at h
  | vint n => simp [validateEqualsIgnoreCaseParams, IsNil] at h
  | vuint n => simp [validateEqualsIgnoreCaseParams, IsNil] at h
  | vfloat f => simp [validateEqualsIgnoreCaseParams, IsNil] at h
  | vcomplex re im => simp [validateEqualsIgnoreCaseParams, IsNil] at h
  | vslice xs =>
    cases xs <;> simp [validateEqualsIgnoreCaseParams, IsNil] at h
  | varray xs => simp [validateEqualsIgnoreCaseParams, IsNil] at h
  | vmap mm =>
    cases mm <;> simp [validateEqualsIgnoreCaseParams, IsNil] at h
  | vstruct fs => simp [validateEqualsIgnoreCaseParams, IsNil] at h
  | vchan r c =>
    cases r <;> simp [validateEqualsIgnoreCaseParams, IsNil] at h
  | vfunc n =>
    cases n <;> simp [validateEqualsIgnoreCaseParams, IsNil] at h
  | vtime t => simp [validateEqualsIgnoreCaseParams, IsNil] at h

theorem eqic_isOk_aux : ∀ n : Nat, ∀ a b : GoVal, sizeOf a + sizeOf b ≤ n →
    exceptIsOk (EqualsIgnoreCase a b) = (resolvesToString a && !hitsNilPointer b) := by
  intro n
  induction n with
  | zero =>
    intro a b h
    have ha := gv_sizeOf_pos a
    have hb := gv_sizeOf_pos b
    omega
  | succ n ih =>
    intro a b hn
    rw [EqualsIgnoreCase.eq_def]
    cases ha : validateEqualsIgnoreCaseParams a with
    | error m =>
      rw [validate_error_resolves a m ha]
      simp [exceptIsOk, Except.bind]
    | ok u =>
      rcases validate_ok_shape a u ha with ⟨s, rfl⟩ | ⟨v, rfl⟩
      · cases b with
        | vptr q =>
          cases q with
          | none => simp [exceptIsOk, resolvesToString, hitsNilPointer, Except.bind]
          | some w =>
            have hsw : sizeOf (GoVal.vptr (some w)) = 2 + sizeOf w := by simp_arith
            have hrec := ih (.vstr s) w (by
              have := gv_sizeOf_pos w
              omega)
            simp only [hitsNilPointer]
            rw [← hrec]
            rfl
        | vnil => simp [exceptIsOk, resolvesToString, hitsNilPointer, Except.bind]
        | vbool b2 => simp [exceptIsOk, resolvesToString, hitsNilPointer, Except.bind]
        | vint n2 => simp [exceptIsOk, resolvesToString, hitsNilPointer, Except.bind]
        | vuint n2 => simp [exceptIsOk, resolvesToString, hitsNilPointer, Except.bind]
        | vfloat f => simp [exceptIsOk, resolvesToString, hitsNilPointer, Except.bind]
        | vcomplex re im => simp [exceptIsOk, resolvesToString, hitsNilPointer, Except.bind]
        | vstr s2 => simp [exceptIsOk, resolvesToString, hitsNilPointer, Except.bind]
        | vslice xs => simp [exceptIsOk, resolvesToString, hitsNilPointer, Except.bind]
        | varray xs => simp [exceptIsOk, resolvesToString, hitsNilPointer, Except.bind]
        | vmap mm => simp [exceptIsOk, resolvesToString, hitsNilPointer, Except.bind]
        | vstruct fs => simp [exceptIsOk, resolvesToString, hitsNilPointer, Except.bind]
        | vchan r c => simp [exceptIsOk, resolvesToString, hitsNilPointer, Except.bind]
        | vfunc n2 => simp [exceptIsOk, resolvesToString, hitsNilPointer, Except.bind]
        | vtime t => simp [exceptIsOk, resolvesToString, hitsNilPointer, Except.bind]
      · have hsv : sizeOf (GoVal.vptr (some v)) = 2 + sizeOf v := by simp_arith
        have hrec := ih v b (by
          have := gv_sizeOf_pos v
          omega)
        simp only [resolvesToString]
        rw [← hrec]
        rfl

/-- C5: the claim asserts that EqualsIgnoreCase panics whenever EITHER
operand does not resolve to the String kind.  A second operand of the
Int kind does not resolve to a string, yet the call returns false
instead of panicking, because the source only validates the first
operand and the final line treats a non-string second operand as an
inequality. -/
theorem c5_eqic_counterexample :
    EqualsIgnoreCase (.vstr "a") (.vint 1) = .ok false := by
  simp [EqualsIgnoreCase, validateEqualsIgnoreCaseParams, IsNil, isStringKind, Except.bind]

/-- C5 amended: EqualsIgnoreCase requires only its FIRST operand to
resolve, after unwrapping non-nil pointer layers, to the String kind; it
panics exactly when the first operand does not so resolve, or when
unwrapping the second operand runs into a nil pointer.  A second operand
of any other non-string shape yields the result false without
panicking. -/
theorem c5_eqic_panic_exact (a b : GoVal) :
    exceptIsOk (EqualsIgnoreCase a b) = (resolvesToString a && !hitsNilPointer b) :=
  eqic_isOk_aux (sizeOf a + sizeOf b) a b le_rfl

end Checker

namespace Checker

theorem beqComm {α : Type} [BEq α] [LawfulBEq α] (a b : α) : (a == b) = (b == a) := by
  by_cases h : a = b
  · subst h; rfl
  · rw [beq_eq_false_iff_ne.mpr h, beq_eq_false_iff_ne.mpr (Ne.symm h)]

theorem gfEq_comm (x y : GoFloat) : gfEq x y = gfEq y x := by
  cases x <;> cases y <;> simp [gfEq, beqComm (α := ℚ)]

theorem entry_sizeOf_lt {k : String} {v : GoVal} {m : List (String × GoVal)}
    (h : (k, v) ∈ m) : sizeOf v < sizeOf m := by
  have h1 := List.sizeOf_lt_of_mem h
  simp only [Prod.mk.sizeOf_spec] at h1
  omega

theorem deepEqualFind_eq_findEntryVal (k : String) (v : GoVal) (m : List (String × GoVal)) :
    deepEqualFind k v m =
      (match findEntryVal k m with | some w => deepEqual v w | none => false) := by
  induction m with
  | nil => simp [deepEqualFind, findEntryVal]
  | cons e rest ih =>
    obtain ⟨k2, w⟩ := e
    by_cases h : k = k2
    · simp [deepEqualFind, findEntryVal, h]
    · simp [deepEqualFind, findEntryVal, h, ih]

theorem findEntryVal_mem {k : String} {w : GoVal} :
    ∀ {m : List (String × GoVal)}, findEntryVal k m = some w → (k, w) ∈ m := by
  intro m
  induction m with
  | nil => intro h; simp [findEntryVal] at h
  | cons e rest ih =>
    obtain ⟨k2, w2⟩ := e
    intro h
    by_cases hk : k = k2
    · subst hk
      simp [findEntryVal] at h
      subst h
      exact List.mem_cons_self _ _
    · simp [findEntryVal, hk] at h
      exact List.mem_cons_of_mem _ (ih h)

theorem findEntryVal_of_mem_nodup {k : String} {w : GoVal} :
    ∀ {m : List (String × GoVal)}, nodupKeysAux (m.map Prod.fst) = true →
      (k, w) ∈ m → findEntryVal k m = some w := by
  intro m
  induction m with
  | nil => intro _ h; simp at h
  | cons e rest ih =>
    obtain ⟨k2, w2⟩ := e
    intro hnd hmem
    simp only [List.map_cons, nodupKeysAux, Bool.and_eq_true, Bool.not_eq_true'] at hnd
    rcases List.mem_cons.mp hmem with heq | htail
    · obtain ⟨rfl, rfl⟩ := Prod.mk.injEq _ _ _ _ ▸ heq
      simp [findEntryVal]
    · have hk : k ≠ k2 := by
        intro hkk
        subst hkk
        have : k ∈ rest.map Prod.fst := List.mem_map.mpr ⟨(k, w), htail, rfl⟩
        have hcont : (rest.map Prod.fst).contains k = true := List.elem_iff.mpr this
        rw [hnd.1] at hcont
        exact Bool.false_ne_true hcont
      simp [findEntryVal, hk]
      exact ih hnd.2 htail

theorem deepEqualMapDir_iff (m1 m2 : List (String × GoVal)) :
    deepEqualMapDir m1 m2 = true ↔ ∀ p ∈ m1, deepEqualFind p.1 p.2 m2 = true := by
  induction m1 with
  | nil => simp [deepEqualMapDir]
  | cons e rest ih =>
    obtain ⟨k, v⟩ := e
    simp [deepEqualMapDir, ih]

theorem nodupKeysAux_iff (l : List String) : nodupKeysAux l = true ↔ l.Nodup := by
  induction l with
  | nil => simp [nodupKeysAux]
  | cons k rest ih =>
    simp only [nodupKeysAux, Bool.and_eq_true, Bool.not_eq_true', List.nodup_cons, ih]
    constructor
    · rintro ⟨h1, h2⟩
      refine ⟨fun hm => ?_, h2⟩
      have hcont : rest.contains k = true := List.elem_iff.mpr hm
      rw [h1] at hcont
      exact Bool.false_ne_true hcont
    · rintro ⟨h1, h2⟩
      refine ⟨?_, h2⟩
      cases hc : (rest.contains k) with
      | false => rfl
      | true => exact absurd (List.elem_iff.mp hc) h1

end Checker

namespace Checker

theorem WFList_mem {x : GoVal} : ∀ {xs : List GoVal}, WFList xs = true → x ∈ xs → WF x = true := by
  intro xs
  induction xs with
  | nil => intro _ h; simp at h
  | cons y ys ih =>
    intro hwf hm
    simp only [WFList, Bool.and_eq_true] at hwf
    rcases List.mem_cons.mp hm with rfl | htail
    · exact hwf.1
    · exact ih hwf.2 htail

theorem WFEntries_mem {k : String} {v : GoVal} :
    ∀ {m : List (String × GoVal)}, WFEntries m = true → (k, v) ∈ m → WF v = true := by
  intro m
  induction m with
  | nil => intro _ h; simp at h
  | cons e rest ih =>
    obtain ⟨k2, w⟩ := e
    intro hwf hm
    simp only [WFEntries, Bool.and_eq_true] at hwf
    rcases List.mem_cons.mp hm with heq | htail
    · obtain ⟨rfl, rfl⟩ := Prod.mk.injEq _ _ _ _ ▸ heq
      exact hwf.1
    · exact ih hwf.2 htail

theorem cleanList_mem {x : GoVal} : ∀ {xs : List GoVal}, cleanList xs = true → x ∈ xs → clean x = true := by
  intro xs
  induction xs with
  | nil => intro _ h; simp at h
  | cons y ys ih =>
    intro hcl hm
    simp only [cleanList, Bool.and_eq_true] at hcl
    rcases List.mem_cons.mp hm with rfl | htail
    · exact hcl.1
    · exact ih hcl.2 htail

theorem cleanEntries_mem {k : String} {v : GoVal} :
    ∀ {m : List (String × GoVal)}, cleanEntries m = true → (k, v) ∈ m → clean v = true := by
  intro m
  induction m with
  | nil => intro _ h; simp at h
  | cons e rest ih =>
    obtain ⟨k2, w⟩ := e
    intro hcl hm
    simp only [cleanEntries, Bool.and_eq_true] at hcl
    rcases List.mem_cons.mp hm with heq | htail
    · obtain ⟨rfl, rfl⟩ := Prod.mk.injEq _ _ _ _ ▸ heq
      exact hcl.1
    · exact ih hcl.2 htail

theorem deepEqualList_symm_of : ∀ (xs ys : List GoVal),
    (∀ x ∈ xs, ∀ y ∈ ys, deepEqual x y = deepEqual y x) →
    deepEqualList xs ys = deepEqualList ys xs := by
  intro xs
  induction xs with
  | nil => intro ys _; cases ys <;> simp [deepEqualList]
  | cons x xs ih =>
    intro ys h
    cases ys with
    | nil => simp [deepEqualList]
    | cons y ys =>
      simp only [deepEqualList]
      rw [h x (List.mem_cons_self _ _) y (List.mem_cons_self _ _),
        ih ys (fun a ha b hb => h a (List.mem_cons_of_mem _ ha) b (List.mem_cons_of_mem _ hb))]

theorem deepEqualFields_symm_of : ∀ (fs gs : List (String × GoVal)),
    (∀ p ∈ fs, ∀ q ∈ gs, deepEqual p.2 q.2 = deepEqual q.2 p.2) →
    deepEqualFields fs gs = deepEqualFields gs fs := by
  intro fs
  induction fs with
  | nil => intro gs _; cases gs <;> simp [deepEqualFields]
  | cons p fs ih =>
    intro gs h
    cases gs with
    | nil => simp [deepEqualFields]
    | cons q gs =>
      obtain ⟨n1, v1⟩ := p
      obtain ⟨n2, v2⟩ := q
      simp only [deepEqualFields]
      rw [beqComm n1 n2,
        h (n1, v1) (List.mem_cons_self _ _) (n2, v2) (List.mem_cons_self _ _),
        ih gs (fun a ha b hb => h a (List.mem_cons_of_mem _ ha) b (List.mem_cons_of_mem _ hb))]

theorem deepEqualList_refl_of : ∀ (xs : List GoVal),
    (∀ x ∈ xs, deepEqual x x = true) → deepEqualList xs xs = true := by
  intro xs
  induction xs with
  | nil => simp [deepEqualList]
  | cons x xs ih =>
    intro h
    simp only [deepEqualList, Bool.and_eq_true]
    exact ⟨h x (List.mem_cons_self _ _),
      ih (fun a ha => h a (List.mem_cons_of_mem _ ha))⟩

theorem deepEqualFields_refl_of : ∀ (fs : List (String × GoVal)),
    (∀ p ∈ fs, deepEqual p.2 p.2 = true) → deepEqualFields fs fs = true := by
  intro fs
  induction fs with
  | nil => simp [deepEqualFields]
  | cons p fs ih =>
    intro h
    obtain ⟨n1, v1⟩ := p
    simp only [deepEqualFields, Bool.and_eq_true]
    refine ⟨⟨by simp, h (n1, v1) (List.mem_cons_self _ _)⟩,
      ih (fun a ha => h a (List.mem_cons_of_mem _ ha))⟩

theorem mapdir_swap (m1 m2 : List (String × GoVal))
    (h1 : nodupKeysAux (m1.map Prod.fst) = true)
    (h2 : nodupKeysAux (m2.map Prod.fst) = true)
    (hlen : m1.length = m2.length)
    (hsymm : ∀ v w, (∃ k, (k, v) ∈ m1) → (∃ k, (k, w) ∈ m2) →
      deepEqual v w = deepEqual w v)
    (hdir : deepEqualMapDir m1 m2 = true) :
    deepEqualMapDir m2 m1 = true := by
  rw [deepEqualMapDir_iff] at hdir ⊢
  have hsub : (m1.map Prod.fst) ⊆ (m2.map Prod.fst) := by
    intro k hk
    obtain ⟨p, hp, hpk⟩ := List.mem_map.mp hk
    have hd := hdir p hp
    rw [deepEqualFind_eq_findEntryVal] at hd
    cases hfe : findEntryVal p.1 m2 with
    | none => rw [hfe] at hd; simp at hd
    | some w =>
      have hmem := findEntryVal_mem hfe
      rw [← hpk]
      exact List.mem_map.mpr ⟨(p.1, w), hmem, rfl⟩
  have hperm : (m1.map Prod.fst).Perm (m2.map Prod.fst) := by
    have hnd1 := (nodupKeysAux_iff _).mp h1
    refine (List.subperm_of_subset hnd1 hsub).perm_of_length_le ?_
    simp [hlen]
  intro p hp
  obtain ⟨k, w⟩ := p
  have hk1 : k ∈ m1.map Prod.fst :=
    hperm.mem_iff.mpr (List.mem_map.mpr ⟨(k, w), hp, rfl⟩)
  obtain ⟨q, hv, hk'⟩ := List.mem_map.mp hk1
  obtain ⟨k', v⟩ := q
  simp only at hk'
  rw [hk'] at hv
  have hd := hdir (k, v) hv
  rw [deepEqualFind_eq_findEntryVal] at hd
  cases hfe : findEntryVal k m2 with
  | none => rw [hfe] at hd; simp at hd
  | some w2 =>
    rw [hfe] at hd
    have hw : (some w2 : Option GoVal) = some w := by
      rw [← hfe, findEntryVal_of_mem_nodup h2 hp]
    injection hw with hw
    rw [hw] at hd
    have hd2 : deepEqual v w = true := hd
    simp only
    rw [deepEqualFind_eq_findEntryVal, findEntryVal_of_mem_nodup h1 hv]
    show deepEqual w v = true
    rw [← hsymm v w ⟨k, hv⟩ ⟨k, hp⟩]
    exact hd2

theorem mapdir_refl (m : List (String × GoVal))
    (hnd : nodupKeysAux (m.map Prod.fst) = true)
    (hrefl : ∀ v, (∃ k, (k, v) ∈ m) → deepEqual v v = true) :
    deepEqualMapDir m m = true := by
  rw [deepEqualMapDir_iff]
  intro p hp
  obtain ⟨k, v⟩ := p
  simp only
  rw [deepEqualFind_eq_findEntryVal, findEntryVal_of_mem_nodup hnd hp]
  exact hrefl v ⟨k, hp⟩

end Checker

namespace Checker

theorem deepEqual_symm_aux : ∀ n : Nat, ∀ a b : GoVal, sizeOf a + sizeOf b ≤ n →
    WF a = true → WF b = true → deepEqual a b = deepEqual b a := by
  intro n
  induction n with
  | zero =>
    intro a b h _ _
    have ha := gv_sizeOf_pos a
    have hb := gv_sizeOf_pos b
    omega
  | succ n ih =>
    intro a b hn hwa hwb
    cases a with
    | vnil => cases b <;> simp [deepEqual]
    | vbool x => cases b <;> simp [deepEqual, beqComm (α := Bool)]
    | vint x => cases b <;> simp [deepEqual, beqComm (α := Int)]
    | vuint x => cases b <;> simp [deepEqual, beqComm (α := Nat)]
    | vfloat x => cases b <;> simp [deepEqual, gfEq_comm]
    | vcomplex r i => cases b <;> simp [deepEqual, gfEq_comm]
    | vstr x => cases b <;> simp [deepEqual, beqComm (α := String)]
    | vchan r c => cases b <;> simp [deepEqual, beqComm (α := Option Nat)]
    | vfunc f => cases b <;> simp [deepEqual, Bool.and_comm]
    | vtime t => cases b <;> simp [deepEqual, beqComm (α := Int)]
    | vptr p =>
      cases b <;> try simp [deepEqual]
      rename_i q
      cases p with
      | none => cases q <;> simp [deepEqual]
      | some v =>
        cases q with
        | none => simp [deepEqual]
        | some w =>
          have e1 : sizeOf (GoVal.vptr (some v)) = 2 + sizeOf v := by simp_arith
          have e2 : sizeOf (GoVal.vptr (some w)) = 2 + sizeOf w := by simp_arith
          have hwv : WF v = true := by simpa [WF] using hwa
          have hww : WF w = true := by simpa [WF] using hwb
          simp only [deepEqual]
          exact ih v w (by omega) hwv hww
    | vslice xs =>
      cases b <;> try simp [deepEqual]
      rename_i ys
      cases xs with
      | none => cases ys <;> simp [deepEqual]
      | some l1 =>
        cases ys with
        | none => simp [deepEqual]
        | some l2 =>
          have e1 : sizeOf (GoVal.vslice (some l1)) = 2 + sizeOf l1 := by simp_arith
          have e2 : sizeOf (GoVal.vslice (some l2)) = 2 + sizeOf l2 := by simp_arith
          have hw1 : WFList l1 = true := by simpa [WF] using hwa
          have hw2 : WFList l2 = true := by simpa [WF] using hwb
          have hsym : ∀ x ∈ l1, ∀ y ∈ l2, deepEqual x y = deepEqual y x := by
            intro x hx y hy
            have b1 := List.sizeOf_lt_of_mem hx
            have b2 := List.sizeOf_lt_of_mem hy
            exact ih x y (by omega) (WFList_mem hw1 hx) (WFList_mem hw2 hy)
          simp only [deepEqual]
          rw [beqComm l1.length l2.length, deepEqualList_symm_of l1 l2 hsym]
    | varray l1 =>
      cases b <;> try (simp only [deepEqual]; done)
      rename_i l2
      have e1 : sizeOf (GoVal.varray l1) = 1 + sizeOf l1 := by simp_arith
      have e2 : sizeOf (GoVal.varray l2) = 1 + sizeOf l2 := by simp_arith
      have hw1 : WFList l1 = true := by simpa [WF] using hwa
      have hw2 : WFList l2 = true := by simpa [WF] using hwb
      have hsym : ∀ x ∈ l1, ∀ y ∈ l2, deepEqual x y = deepEqual y x := by
        intro x hx y hy
        have b1 := List.sizeOf_lt_of_mem hx
        have b2 := List.sizeOf_lt_of_mem hy
        exact ih x y (by omega) (WFList_mem hw1 hx) (WFList_mem hw2 hy)
      simp only [deepEqual]
      rw [beqComm l1.length l2.length, deepEqualList_symm_of l1 l2 hsym]
    | vstruct fs =>
      cases b <;> try (simp only [deepEqual]; done)
      rename_i gs
      have e1 : sizeOf (GoVal.vstruct fs) = 1 + sizeOf fs := by simp_arith
      have e2 : sizeOf (GoVal.vstruct gs) = 1 + sizeOf gs := by simp_arith
      have hw1 : WFEntries fs = true := by simpa [WF] using hwa
      have hw2 : WFEntries gs = true := by simpa [WF] using hwb
      have hsym : ∀ p ∈ fs, ∀ q ∈ gs, deepEqual p.2 q.2 = deepEqual q.2 p.2 := by
        intro p hp q hq
        obtain ⟨k1, v⟩ := p
        obtain ⟨k2, w⟩ := q
        have b1 := entry_sizeOf_lt hp
        have b2 := entry_sizeOf_lt hq
        exact ih v w (by omega) (WFEntries_mem hw1 hp) (WFEntries_mem hw2 hq)
      simp only [deepEqual]
      rw [beqComm fs.length gs.length, deepEqualFields_symm_of fs gs hsym]
    | vmap m1 =>
      cases b <;> try simp [deepEqual]
      rename_i m2
      cases m1 with
      | none => cases m2 <;> simp [deepEqual]
      | some e1 =>
        cases m2 with
        | none => simp [deepEqual]
        | some e2 =>
          have s1 : sizeOf (GoVal.vmap (some e1)) = 2 + sizeOf e1 := by simp_arith
          have s2 : sizeOf (GoVal.vmap (some e2)) = 2 + sizeOf e2 := by simp_arith
          have hw1 : nodupKeysAux (e1.map Prod.fst) = true ∧ WFEntries e1 = true := by
            simpa [WF, Bool.and_eq_true] using hwa
          have hw2 : nodupKeysAux (e2.map Prod.fst) = true ∧ WFEntries e2 = true := by
            simpa [WF, Bool.and_eq_true] using hwb
          simp only [deepEqual]
          by_cases hlen : e1.length = e2.length
          · have hs12 : ∀ v w, (∃ k, (k, v) ∈ e1) → (∃ k, (k, w) ∈ e2) →
                deepEqual v w = deepEqual w v := by
              rintro v w ⟨k1, hv⟩ ⟨k2, hw⟩
              have b1 := entry_sizeOf_lt hv
              have b2 := entry_sizeOf_lt hw
              exact ih v w (by omega) (WFEntries_mem hw1.2 hv) (WFEntries_mem hw2.2 hw)
            have hs21 : ∀ v w, (∃ k, (k, v) ∈ e2) → (∃ k, (k, w) ∈ e1) →
                deepEqual v w = deepEqual w v := by
              rintro v w ⟨k1, hv⟩ ⟨k2, hw⟩
              have b1 := entry_sizeOf_lt hv
              have b2 := entry_sizeOf_lt hw
              exact ih v w (by omega) (WFEntries_mem hw2.2 hv) (WFEntries_mem hw1.2 hw)
            have himp1 : deepEqualMapDir e1 e2 = true → deepEqualMapDir e2 e1 = true :=
              fun h => mapdir_swap e1 e2 hw1.1 hw2.1 hlen hs12 h
            have himp2 : deepEqualMapDir e2 e1 = true → deepEqualMapDir e1 e2 = true :=
              fun h => mapdir_swap e2 e1 hw2.1 hw1.1 hlen.symm hs21 h
            have hlb : (e1.length == e2.length) = true := by simp [hlen]
            have hlb2 : (e2.length == e1.length) = true := by simp [hlen]
            rw [hlb, hlb2]
            simp only [Bool.true_and]
            cases hd1 : deepEqualMapDir e1 e2 with
            | true => rw [himp1 hd1]
            | false =>
              cases hd2 : deepEqualMapDir e2 e1 with
              | true => exact absurd (himp2 hd2) (by simp [hd1])
              | false => rfl
          · have hlb : (e1.length == e2.length) = false := by simp [hlen]
            have hlb2 : (e2.length == e1.length) = false := by simp [Ne.symm hlen]
            rw [hlb, hlb2]
            simp

end Checker

namespace Checker

theorem deepEqual_refl_aux : ∀ n : Nat, ∀ a : GoVal, sizeOf a ≤ n →
    WF a = true → clean a = true → deepEqual a a = true := by
  intro n
  induction n with
  | zero =>
    intro a h _ _
    have := gv_sizeOf_pos a
    omega
  | succ n ih =>
    intro a hn hwa hca
    cases a with
    | vnil => simp [deepEqual]
    | vbool x => simp [deepEqual]
    | vint x => simp [deepEqual]
    | vuint x => simp [deepEqual]
    | vstr x => simp [deepEqual]
    | vtime t => simp [deepEqual]
    | vchan r c => simp [deepEqual]
    | vfloat f =>
      cases f with
      | nan => simp [clean] at hca
      | num q => simp [deepEqual, gfEq]
    | vcomplex r i =>
      cases r with
      | nan => simp [clean] at hca
      | num q1 =>
        cases i with
        | nan => simp [clean] at hca
        | num q2 => simp [deepEqual, gfEq]
    | vfunc f =>
      have hf : f = true := by simpa [clean] using hca
      simp [deepEqual, hf]
    | vptr p =>
      cases p with
      | none => simp [deepEqual]
      | some v =>
        have e1 : sizeOf (GoVal.vptr (some v)) = 2 + sizeOf v := by simp_arith
        have h1 : WF v = true := by simpa [WF] using hwa
        have h2 : clean v = true := by simpa [clean] using hca
        simp only [deepEqual]
        exact ih v (by omega) h1 h2
    | vslice xs =>
      cases xs with
      | none => simp [deepEqual]
      | some l =>
        have e1 : sizeOf (GoVal.vslice (some l)) = 2 + sizeOf l := by simp_arith
        have hw : WFList l = true := by simpa [WF] using hwa
        have hc : cleanList l = true := by simpa [clean] using hca
        simp only [deepEqual, Bool.and_eq_true]
        refine ⟨by simp, deepEqualList_refl_of l ?_⟩
        intro x hx
        have := List.sizeOf_lt_of_mem hx
        exact ih x (by omega) (WFList_mem hw hx) (cleanList_mem hc hx)
    | varray l =>
      have e1 : sizeOf (GoVal.varray l) = 1 + sizeOf l := by simp_arith
      have hw : WFList l = true := by simpa [WF] using hwa
      have hc : cleanList l = true := by simpa [clean] using hca
      simp only [deepEqual, Bool.and_eq_true]
      refine ⟨by simp, deepEqualList_refl_of l ?_⟩
      intro x hx
      have := List.sizeOf_lt_of_mem hx
      exact ih x (by omega) (WFList_mem hw hx) (cleanList_mem hc hx)
    | vstruct fs =>
      have e1 : sizeOf (GoVal.vstruct fs) = 1 + sizeOf fs := by simp_arith
      have hw : WFEntries fs = true := by simpa [WF] using hwa
      have hc : cleanEntries fs = true := by simpa [clean] using hca
      simp only [deepEqual, Bool.and_eq_true]
      refine ⟨by simp, deepEqualFields_refl_of fs ?_⟩
      intro p hp
      obtain ⟨k, v⟩ := p
      have := entry_sizeOf_lt hp
      exact ih v (by omega) (WFEntries_mem hw hp) (cleanEntries_mem hc hp)
    | vmap m =>
      cases m with
      | none => simp [deepEqual]
      | some es =>
        have s1 : sizeOf (GoVal.vmap (some es)) = 2 + sizeOf es := by simp_arith
        have hw : nodupKeysAux (es.map Prod.fst) = true ∧ WFEntries es = true := by
          simpa [WF, Bool.and_eq_true] using hwa
        have hc : cleanEntries es = true := by simpa [clean] using hca
        simp only [deepEqual, Bool.and_eq_true]
        refine ⟨by simp, mapdir_refl es hw.1 ?_⟩
        rintro v ⟨k, hv⟩
        have := entry_sizeOf_lt hv
        exact ih v (by omega) (WFEntries_mem hw.2 hv) (cleanEntries_mem hc hv)

end Checker

namespace Checker

theorem unwrapAll_eq_self (a : GoVal) (h : ∀ v, a = GoVal.vptr (some v) → False) :
    unwrapAll a = a := by
  cases a <;> try rfl
  rename_i p
  cases p with
  | none => rfl
  | some v => exact (h v rfl).elim

theorem equals_eq_unwrapAll_aux : ∀ n : Nat, ∀ a b : GoVal, sizeOf a + sizeOf b ≤ n →
    Equals a b = deepEqual (unwrapAll a) (unwrapAll b) := by
  intro n
  induction n with
  | zero =>
    intro a b h
    have := gv_sizeOf_pos a
    have := gv_sizeOf_pos b
    omega
  | succ n ih =>
    intro a b hn
    rw [Equals.eq_def]
    split
    · rename_i v
      have e1 : sizeOf (GoVal.vptr (some v)) = 2 + sizeOf v := by simp_arith
      have hb := gv_sizeOf_pos b
      rw [ih v b (by omega)]
      rfl
    · rename_i w hna
      have e2 : sizeOf (GoVal.vptr (some w)) = 2 + sizeOf w := by simp_arith
      have ha := gv_sizeOf_pos a
      rw [ih a w (by omega)]
      rfl
    · rename_i hna hnb
      rw [unwrapAll_eq_self a hna, unwrapAll_eq_self b hnb]

theorem equals_eq_unwrapAll (a b : GoVal) :
    Equals a b = deepEqual (unwrapAll a) (unwrapAll b) :=
  equals_eq_unwrapAll_aux (sizeOf a + sizeOf b) a b le_rfl

theorem unwrapAll_WF : ∀ n : Nat, ∀ a : GoVal, sizeOf a ≤ n →
    WF a = true → WF (unwrapAll a) = true := by
  intro n
  induction n with
  | zero =>
    intro a h _
    have := gv_sizeOf_pos a
    omega
  | succ n ih =>
    intro a hn hwa
    cases a <;> try exact hwa
    rename_i p
    cases p with
    | none => exact hwa
    | some v =>
      have e1 : sizeOf (GoVal.vptr (some v)) = 2 + sizeOf v := by simp_arith
      have h1 : WF v = true := by simpa [WF] using hwa
      exact ih v (by omega) h1

theorem unwrapAll_clean : ∀ n : Nat, ∀ a : GoVal, sizeOf a ≤ n →
    clean a = true → clean (unwrapAll a) = true := by
  intro n
  induction n with
  | zero =>
    intro a h _
    have := gv_sizeOf_pos a
    omega
  | succ n ih =>
    intro a hn hca
    cases a <;> try exact hca
    rename_i p
    cases p with
    | none => exact hca
    | some v =>
      have e1 : sizeOf (GoVal.vptr (some v)) = 2 + sizeOf v := by simp_arith
      have h1 : clean v = true := by simpa [clean] using hca
      exact ih v (by omega) h1

theorem equals_symm_of_WF (a b : GoVal) (hwa : WF a = true) (hwb : WF b = true) :
    Equals a b = Equals b a := by
  rw [equals_eq_unwrapAll a b, equals_eq_unwrapAll b a]
  exact deepEqual_symm_aux (sizeOf (unwrapAll a) + sizeOf (unwrapAll b)) _ _ le_rfl
    (unwrapAll_WF (sizeOf a) a le_rfl hwa) (unwrapAll_WF (sizeOf b) b le_rfl hwb)

theorem equals_refl_of (a : GoVal) (hwa : WF a = true) (hca : clean a = true) :
    Equals a a = true := by
  rw [equals_eq_unwrapAll a a]
  exact deepEqual_refl_aux (sizeOf (unwrapAll a)) _ le_rfl
    (unwrapAll_WF (sizeOf a) a le_rfl hwa) (unwrapAll_clean (sizeOf a) a le_rfl hca)

/-- C4: the claim asserts that Equals is reflexive on every cycle-free
value.  A non-nil function value is cycle-free, yet reflect.DeepEqual
declares non-nil functions deeply equal to nothing, their own value
included, so Equals on a non-nil function and itself is false. -/
theorem c4_equals_func_counterexample :
    Equals (.vfunc false) (.vfunc false) = false := by
  simp [Equals, deepEqual]

/-- C4 amended: Equals is symmetric on all well-formed values (those
whose maps have duplicate-free key lists, which covers every real Go
value), and Equals is reflexive on every well-formed cycle-free value
that contains no non-nil function and no NaN float component. -/
theorem c4_equals_symm_refl :
    (∀ a b : GoVal, WF a = true → WF b = true → Equals a b = Equals b a) ∧
    (∀ a : GoVal, WF a = true → clean a = true → Equals a a = true) :=
  ⟨equals_symm_of_WF, equals_refl_of⟩

/-- C4 witness: the amended theorem applied to a string and a slice, and
to the slice with itself. -/
theorem c4_equals_witness :
    (WF (.vstr "go") = true ∧ WF (.vslice (some [.vint 1])) = true ∧
      Equals (.vstr "go") (.vslice (some [.vint 1])) =
        Equals (.vslice (some [.vint 1])) (.vstr "go")) ∧
    (clean (.vslice (some [.vint 1])) = true ∧
      Equals (.vslice (some [.vint 1])) (.vslice (some [.vint 1])) = true) :=
  ⟨⟨by decide, by decide, c4_equals_symm_refl.1 _ _ (by decide) (by decide)⟩,
   ⟨by decide, c4_equals_symm_refl.2 _ (by decide) (by decide)⟩⟩

/-- C6: the claim asserts that Equals unwraps AT MOST ONE pointer or
interface layer on each side before applying deep equality.  A pointer
to a pointer to the integer five compared with the bare integer five is
true under Equals, which keeps unwrapping, but false under the
single-unwrap reading of the specification, which stops after one
layer. -/
theorem c6_single_unwrap_counterexample :
    Equals (.vptr (some (.vptr (some (.vint 5))))) (.vint 5) = true ∧
    specEqualsSingleUnwrap (.vptr (some (.vptr (some (.vint 5))))) (.vint 5) = false := by
  constructor
  · simp [Equals, deepEqual]
  · simp [specEqualsSingleUnwrap, deepEqual]

/-- C6 amended: Equals unwraps pointer layers REPEATEDLY, one layer per
recursive call, until each side reaches a non-pointer value or a nil
pointer, and then applies deep equality to the two normal forms. -/
theorem c6_equals_unwraps_recursively (a b : GoVal) :
    Equals a b = deepEqual (unwrapAll a) (unwrapAll b) :=
  equals_eq_unwrapAll a b

end Checker
